import Mathlib

/-!
Verification of the expiry-tracking and reclamation engine of the
`reg.meh.wf` (ephemeron) repository: a shallow embedding, in Lean 4, of
the TTL parser/clamper (`internal/hooks/ttl.go`), the webhook handler
(`internal/hooks/handler.go`), the reconciler (`internal/recover/recover.go`),
the configuration validation (`internal/config/config.go`), and a
spec-modelled reap cycle (`internal/reaper/reaper.go`, whose implementation
file is not part of the available sources; only its tests are).

Durations are modelled as Go `time.Duration` values: 64-bit signed counts
of nanoseconds.  Where the Go code performs `int64` arithmetic that can
wrap around, the embedding wraps explicitly through `wrap64`.
-/

set_option maxRecDepth 4000

/-- One second, in nanoseconds (`time.Second`). -/
def second : Int := 1000000000

/-- One minute, in nanoseconds (`time.Minute`). -/
def minute : Int := 60000000000

/-- One hour, in nanoseconds (`time.Hour`). -/
def hour : Int := 3600000000000

/-- The largest `int64` value (`math.MaxInt64`). -/
def maxInt64 : Int := 2 ^ 63 - 1

/-- Two's-complement wrap-around of an integer into the `int64` range. -/
def wrap64 (x : Int) : Int := (x + 2 ^ 63) % 2 ^ 64 - 2 ^ 63

/-- `int64` addition as Go performs it (wrapping). -/
def i64add (a b : Int) : Int := wrap64 (a + b)

/-- `int64` multiplication as Go performs it (wrapping). -/
def i64mul (a b : Int) : Int := wrap64 (a * b)

/-- `strconv.Atoi` on a non-empty all-digit string whose numeric value is
`n`: the parsed value, clamped to `math.MaxInt64` on range error (the
source discards the error and keeps the clamped value). -/
def atoiClamp (n : Nat) : Int := min (Int.ofNat n) maxInt64

/-- Numeric value of a digit character. -/
def digitVal (c : Char) : Nat := c.toNat - '0'.toNat

/-- Numeric value of a digit string (most significant digit first). -/
def natOfDigits (ds : List Char) : Nat :=
  ds.foldl (fun acc c => acc * 10 + digitVal c) 0

/-- One optional component `(?:(\d+)u)?` of the duration regular
expression `durationPattern`: if the input starts with one or more digits
followed directly by the unit letter `u`, the component matches and both
are consumed; otherwise the component is absent and nothing is consumed.
(The regex is deterministic here: a shorter digit prefix is always
followed by another digit, never by the unit letter.) -/
def comp (u : Char) (cs : List Char) : Option Nat × List Char :=
  let ds := cs.takeWhile (fun c => c.isDigit)
  let rest := cs.dropWhile (fun c => c.isDigit)
  match rest with
  | [] => (none, cs)
  | r :: rest' =>
    if ds ≠ [] ∧ r = u then (some (natOfDigits ds), rest') else (none, cs)

/-- The five capture groups of
`^(?:(\d+)w)?(?:(\d+)d)?(?:(\d+)h)?(?:(\d+)m)?(?:(\d+)s)?$`:
a captured group carries the numeric value of its digit string. -/
structure TagGroups where
  w : Option Nat
  d : Option Nat
  h : Option Nat
  m : Option Nat
  s : Option Nat
deriving DecidableEq

/-- `durationPattern.FindStringSubmatch`: the whole tag must be consumed
by the five optional components in fixed order, otherwise no match. -/
def matchTag (tag : String) : Option TagGroups :=
  let cs0 := tag.data
  let (gw, cs1) := comp 'w' cs0
  let (gd, cs2) := comp 'd' cs1
  let (gh, cs3) := comp 'h' cs2
  let (gm, cs4) := comp 'm' cs3
  let (gs, cs5) := comp 's' cs4
  if cs5 = [] then some (TagGroups.mk gw gd gh gm gs) else none

/-- `hasValue` in `ParseTTL`: at least one capture group is non-empty. -/
def hasValue (g : TagGroups) : Bool :=
  g.w.isSome || g.d.isSome || g.h.isSome || g.m.isSome || g.s.isSome

/-- `time.Duration(n) * 7 * 24 * time.Hour`, evaluated left to right with
`int64` wrap-around at every step. -/
def weekTerm (n : Nat) : Int :=
  i64mul (i64mul (i64mul (atoiClamp n) 7) 24) hour

/-- `time.Duration(n) * 24 * time.Hour` with `int64` wrap-around. -/
def dayTerm (n : Nat) : Int := i64mul (i64mul (atoiClamp n) 24) hour

/-- `time.Duration(n) * time.Hour` with `int64` wrap-around. -/
def hourTerm (n : Nat) : Int := i64mul (atoiClamp n) hour

/-- `time.Duration(n) * time.Minute` with `int64` wrap-around. -/
def minuteTerm (n : Nat) : Int := i64mul (atoiClamp n) minute

/-- `time.Duration(n) * time.Second` with `int64` wrap-around. -/
def secondTerm (n : Nat) : Int := i64mul (atoiClamp n) second

/-- One `d += ...` step of `ParseTTL`: absent groups contribute nothing,
present groups add their term with `int64` wrap-around. -/
def addTerm (acc : Int) (g : Option Nat) (term : Nat → Int) : Int :=
  match g with
  | none => acc
  | some n => i64add acc (term n)

/-- The accumulated duration computed by `ParseTTL` from the five capture
groups, in source order (weeks, days, hours, minutes, seconds). -/
def sumTTL (g : TagGroups) : Int :=
  addTerm
    (addTerm
      (addTerm
        (addTerm
          (addTerm 0 g.w weekTerm)
          g.d dayTerm)
        g.h hourTerm)
      g.m minuteTerm)
    g.s secondTerm

/-- `ParseTTL` (internal/hooks/ttl.go): parses a duration string from an
image tag, returning `-1` when the tag is empty, does not match the
duration pattern, or matches it with no component present. -/
def ParseTTL (tag : String) : Int :=
  if tag = "" then -1
  else
    match matchTag tag with
    | none => -1
    | some g => if hasValue g = false then -1 else sumTTL g

/-- `ClampTTL` (internal/hooks/ttl.go): applies default and max TTL
limits. -/
def ClampTTL (d defaultTTL maxTTL : Int) : Int :=
  if d ≤ 0 then defaultTTL
  else if d > maxTTL then maxTTL
  else d

/-- The exact (unwrapped) value of a component term, over ℤ. -/
def weekTermExact (n : Nat) : Int := atoiClamp n * 7 * 24 * hour

/-- The exact (unwrapped) day term, over ℤ. -/
def dayTermExact (n : Nat) : Int := atoiClamp n * 24 * hour

/-- The exact (unwrapped) hour term, over ℤ. -/
def hourTermExact (n : Nat) : Int := atoiClamp n * hour

/-- The exact (unwrapped) minute term, over ℤ. -/
def minuteTermExact (n : Nat) : Int := atoiClamp n * minute

/-- The exact (unwrapped) second term, over ℤ. -/
def secondTermExact (n : Nat) : Int := atoiClamp n * second

/-- Exact contribution of an optional capture group, over ℤ. -/
def exactTermOpt (g : Option Nat) (term : Nat → Int) : Int :=
  match g with
  | none => 0
  | some n => term n

/-- What `ParseTTL` would compute over unbounded integers: the weighted
sum of the (clamped) component magnitudes, with no 64-bit wrap-around. -/
def exactSum (g : TagGroups) : Int :=
  exactTermOpt g.w weekTermExact + exactTermOpt g.d dayTermExact +
    exactTermOpt g.h hourTermExact + exactTermOpt g.m minuteTermExact +
    exactTermOpt g.s secondTermExact

/-- `Config` (internal/config/config.go), restricted to the fields read
by `Validate`. -/
structure Config where
  redisURL : String
  hookToken : String
  registryURL : String
  defaultTTL : Int
  maxTTL : Int

/-- `Config.Validate` (internal/config/config.go): returns the first
failing check as an error message, or `none` when the configuration is
valid. -/
def configValidate (c : Config) : Option String :=
  if c.redisURL = "" then some "REDIS_URL is required"
  else if c.hookToken = "" then some "HOOK_TOKEN is required"
  else if c.registryURL = "" then some "REGISTRY_URL is required"
  else if c.defaultTTL ≤ 0 then some "DEFAULT_TTL must be positive"
  else if c.maxTTL ≤ 0 then some "MAX_TTL must be positive"
  else if c.defaultTTL > c.maxTTL then
    some "DEFAULT_TTL must not exceed MAX_TTL"
  else none

/-- `fmt.Sprintf("%s:%s", repo, tag)`: an artifact reference. -/
def mkRef (repo tag : String) : String := repo ++ ":" ++ tag

/-- `Store.TrackImage` on the tracking state, modelled as an association
list from reference to `expiresAt`: an idempotent upsert that overwrites
the expiry of an already-tracked reference and appends a new one. -/
def trackImage (store : List (String × Int)) (ref : String) (exp : Int) :
    List (String × Int) :=
  match store with
  | [] => [(ref, exp)]
  | (r, e) :: rest =>
    if r = ref then (r, exp) :: rest else (r, e) :: trackImage rest ref exp

/-- `Store.RemoveImage`: removes the reference's set membership and
metadata together; a no-op on an absent reference. -/
def removeImage (store : List (String × Int)) (ref : String) :
    List (String × Int) :=
  store.filter (fun p => p.1 ≠ ref)

/-- The environment a reconciliation run (`recover.Runner.Run`) interacts
with, with a fixed clock: the result of `registry.ListRepositories`, the
result of `registry.ListTags` per repository, whether `redis.TrackImage`
succeeds for a given reference, the current time, and the configured
TTLs. -/
structure RecEnv where
  repos : Except String (List String)
  tags : String → Except String (List String)
  trackOk : String → Bool
  now : Int
  defaultTTL : Int
  maxTTL : Int

/-- The inner tag loop of `recover.Runner.Run`: for each tag, computes
`expiresAt = now + ClampTTL(ParseTTL(tag), defaultTTL, maxTTL)` and calls
`TrackImage`; a failed `TrackImage` is logged and only that image is
skipped.  Returns the updated store and the references written.  -/
def trackTags (env : RecEnv) (repo : String) (ts : List String)
    (store : List (String × Int)) : List (String × Int) × List String :=
  match ts with
  | [] => (store, [])
  | tag :: rest =>
    let ref := mkRef repo tag
    let ttl := ClampTTL (ParseTTL tag) env.defaultTTL env.maxTTL
    if env.trackOk ref then
      let out := trackTags env repo rest (trackImage store ref (env.now + ttl))
      (out.1, ref :: out.2)
    else
      trackTags env repo rest store

/-- The repository loop of `recover.Runner.Run`: a repository whose tag
listing fails is skipped (logged) and enumeration continues with the
remaining repositories. -/
def runRepos (env : RecEnv) (rs : List String)
    (store : List (String × Int)) : List (String × Int) × List String :=
  match rs with
  | [] => (store, [])
  | repo :: rest =>
    match env.tags repo with
    | Except.error _ => runRepos env rest store
    | Except.ok ts =>
      let out := trackTags env repo ts store
      let out' := runRepos env rest out.1
      (out'.1, out.2 ++ out'.2)

/-- Outcome of a reconciliation run: the final tracking state, the
returned error (if any), and the references written, in order. -/
structure RunResult where
  store : List (String × Int)
  err : Option String
  tracks : List String
deriving DecidableEq

/-- `recover.Runner.Run`: aborts with an error if the top-level
repository listing fails (before any tracking write); otherwise processes
every repository, skipping those whose tag listing fails, and returns no
error. -/
def runRec (env : RecEnv) (store : List (String × Int)) : RunResult :=
  match env.repos with
  | Except.error e => RunResult.mk store (some ("listing repositories: " ++ e)) []
  | Except.ok rs =>
    let out := runRepos env rs store
    RunResult.mk out.1 none out.2

/-- The persisted coordination state seen by the reconciler: the tracking
records and the initialization marker. -/
structure RecState where
  tracked : List (String × Int)
  initialized : Bool
deriving DecidableEq

/-- Outcome of `RunIfNeeded`: resulting state, returned error,
whether a reconciliation (repository enumeration) was performed, and the
references written. -/
structure RunIfNeededResult where
  state : RecState
  err : Option String
  ranRecovery : Bool
  tracks : List String
deriving DecidableEq

/-- `recover.Runner.RunIfNeeded`: `initRes` is the result of
`IsInitialized`, `setOk` whether `SetInitialized` would succeed.  A
failing initialization check is surfaced as an error with no
reconciliation; an initialized store is a no-op; otherwise `Run` is
performed and the marker is set only when it succeeded. -/
def runIfNeeded (initRes : Except String Bool) (setOk : Bool)
    (env : RecEnv) (st : RecState) : RunIfNeededResult :=
  match initRes with
  | Except.error e =>
    RunIfNeededResult.mk st (some ("checking initialization state: " ++ e)) false []
  | Except.ok true => RunIfNeededResult.mk st none false []
  | Except.ok false =>
    let r := runRec env st.tracked
    match r.err with
    | some e =>
      RunIfNeededResult.mk (RecState.mk r.store st.initialized) (some e) true r.tracks
    | none =>
      if setOk then
        RunIfNeededResult.mk (RecState.mk r.store true) none true r.tracks
      else
        RunIfNeededResult.mk (RecState.mk r.store st.initialized)
          (some "setting initialized flag") true r.tracks

/-- `hooks.RegistryEvent`: one event of the webhook envelope. -/
structure RegistryEvent where
  action : String
  repository : String
  tag : String
deriving DecidableEq

/-- The environment of the webhook handler (`hooks.Handler`): the shared
token, the configured TTLs, a fixed clock, and whether the tracking-store
write (`redis.TrackImage`) succeeds for a given reference. -/
structure HookEnv where
  hookToken : String
  defaultTTL : Int
  maxTTL : Int
  now : Int
  trackOk : String → Bool

/-- `hooks.Handler.handlePush`: computes the effective TTL for the tag,
derives `expiresAt = now + ttl`, and writes the tracking record; returns
whether the store write succeeded and the resulting store. -/
def handlePush (env : HookEnv) (store : List (String × Int))
    (repo tag : String) : Bool × List (String × Int) :=
  let ref := mkRef repo tag
  let ttl := ClampTTL (ParseTTL tag) env.defaultTTL env.maxTTL
  if env.trackOk ref then (true, trackImage store ref (env.now + ttl))
  else (false, store)

/-- `hooks.Handler.ServeHTTP`: answers 405 to a non-POST method, 401 to a
failed token check, 400 to an undecodable payload (`body = none`), and
otherwise processes every push event with a non-empty repository and tag,
logging (but not surfacing) `handlePush` failures, and answers 200.
Returns the HTTP status and the resulting tracking store. -/
def serveHTTP (env : HookEnv) (store : List (String × Int))
    (method : String) (authHeader : String)
    (body : Option (List RegistryEvent)) : Nat × List (String × Int) :=
  if method ≠ "POST" then (405, store)
  else if authHeader ≠ "Token " ++ env.hookToken then (401, store)
  else
    match body with
    | none => (400, store)
    | some events =>
      let st := events.foldl
        (fun st ev =>
          if ev.action ≠ "push" then st
          else if ev.repository = "" ∨ ev.tag = "" then st
          else (handlePush env st ev.repository ev.tag).2)
        store
      (200, st)

/-- Outcome of invoking the artifact-deletion collaborator for one
reference, as the reap cycle sees it. -/
inductive DelOutcome where
  | accepted : DelOutcome
  | failed : DelOutcome
deriving DecidableEq

/-- Modelled from the spec: the per-cycle evaluation of the Reap Cycle
Controller (`internal/reaper/reaper.go`, `ReapOnce`; the implementation
file is missing from the sources, only its tests are present).  Per spec
§4.3, for each tracked reference the cycle reads its expiry with a fixed
clock; if `now < expiresAt` the reference is skipped (left tracked, no
registry call); otherwise the deletion collaborator is invoked, the
tracking record is removed on an accepted outcome, and kept for retry on
a failed one.  Returns the remaining tracking records and the references
for which the collaborator was invoked. -/
def reapOnce (now : Int) (del : String → DelOutcome)
    (store : List (String × Int)) : List (String × Int) × List String :=
  match store with
  | [] => ([], [])
  | (ref, exp) :: rest =>
    let out := reapOnce now del rest
    if now < exp then ((ref, exp) :: out.1, out.2)
    else if del ref = DelOutcome.accepted then (out.1, ref :: out.2)
    else ((ref, exp) :: out.1, ref :: out.2)

/-- Result of resolving a reference's content digest against the artifact
store (`HEAD /v2/{repo}/manifests/{tag}`). -/
inductive HeadResult where
  | notFound : HeadResult
  | digest : String → HeadResult
  | err : String → HeadResult
deriving DecidableEq

/-- Splits an artifact reference into its repository and tag parts at the
first colon; `none` when the reference has no colon (malformed). -/
def splitImage (ref : String) : Option (String × String) :=
  match ref.data.splitOn ':' with
  | [_] => none
  | [] => none
  | p :: rest =>
    some (String.mk p, String.intercalate ":" (rest.map String.mk))

/-- Modelled from the spec: the reaper's per-image deletion
(`internal/reaper/reaper.go`, `deleteImage`; the implementation file is
missing from the sources, only its tests are present).  Per spec §4.3/§6
and the repository's architecture document: the reference must split into
a repository and a tag part (malformed references fail fast, before any
network call); the digest is resolved with a HEAD request, and a
"not found" answer means the artifact is already absent upstream, which
is treated as accepted — the tracking record is removed and no error is
returned; otherwise the manifest is deleted by digest, accepting statuses
200, 202 and 404; any other outcome is an error and the record is kept.
`head` is the artifact store's answer to the digest resolution and
`delStatus` its answer to the deletion (`none` for a transport error). -/
def deleteImage (head : HeadResult) (delStatus : Option Nat)
    (store : List (String × Int)) (ref : String) :
    Except String (List (String × Int)) :=
  match splitImage ref with
  | none => Except.error "invalid image format"
  | some _ =>
    match head with
    | HeadResult.err e => Except.error e
    | HeadResult.notFound => Except.ok (removeImage store ref)
    | HeadResult.digest _ =>
      match delStatus with
      | none => Except.error "transport error"
      | some st =>
        if st = 200 ∨ st = 202 ∨ st = 404 then Except.ok (removeImage store ref)
        else Except.error "unexpected status"

example : ParseTTL "5m" = 300000000000 := by decide
example : ParseTTL "1h30m" = 5400000000000 := by decide
example : ParseTTL "0m" = 0 := by decide
example : ParseTTL "latest" = -1 := by decide
example : ParseTTL "" = -1 := by decide
example : ParseTTL "1w3d12h" = 907200000000000 := by decide
example : ParseTTL "2d12h" = 216000000000000 := by decide
example : ParseTTL "sha-abc123" = -1 := by decide
example : ParseTTL "v1.0.0" = -1 := by decide
example : ClampTTL (-1) 10 20 = 10 := by decide
example : ClampTTL 30 10 20 = 20 := by decide
example : ClampTTL 15 10 20 = 15 := by decide

/-! ## General lemmas about `ClampTTL` -/

theorem clampTTL_of_nonpos (d defaultTTL maxTTL : Int) (h : d ≤ 0) :
    ClampTTL d defaultTTL maxTTL = defaultTTL := by
  unfold ClampTTL
  rw [if_pos h]

theorem clampTTL_of_pos_le (d defaultTTL maxTTL : Int) (h1 : 0 < d)
    (h2 : d ≤ maxTTL) : ClampTTL d defaultTTL maxTTL = d := by
  unfold ClampTTL
  rw [if_neg (by omega), if_neg (by omega)]

/-- C3 counterexample: with `defaultTTL = 2h > maxTTL = 1h` and a failed
parse (`d = -1`), `ClampTTL` returns `defaultTTL = 2h`, which exceeds
`maxTTL` — it does not return `maxTTL` as the claim states. -/
theorem clampTTL_violated_invariant_counterexample :
    2 * hour > hour ∧ ClampTTL (-1) (2 * hour) hour = 2 * hour ∧
      ¬ ClampTTL (-1) (2 * hour) hour ≤ hour := by
  decide

/-- C3 (amended): when `defaultTTL > maxTTL`, a positive parsed duration
is still capped at `maxTTL`, but a failed parse (`d ≤ 0`) yields
`defaultTTL` itself, which exceeds `maxTTL`; the invariant
`defaultTTL ≤ maxTTL` is what `Config.Validate` enforces. -/
theorem clampTTL_violated_invariant (d defaultTTL maxTTL : Int)
    (hviol : defaultTTL > maxTTL) :
    (0 < d → ClampTTL d defaultTTL maxTTL ≤ maxTTL) ∧
    (d ≤ 0 → ClampTTL d defaultTTL maxTTL = defaultTTL) ∧
    (∀ c : Config, configValidate c = none → c.defaultTTL ≤ c.maxTTL) := by
  refine ⟨?_, ?_, ?_⟩
  · intro hd
    unfold ClampTTL
    split_ifs <;> omega
  · intro hd
    unfold ClampTTL
    rw [if_pos hd]
  · intro c hc
    unfold configValidate at hc
    split_ifs at hc with h1 h2 h3 h4 h5 h6
    omega

theorem clampTTL_violated_invariant_witness :
    (2 : Int) > 1 ∧
    ((0 < (5 : Int) → ClampTTL 5 2 1 ≤ 1) ∧
     ((5 : Int) ≤ 0 → ClampTTL 5 2 1 = 2) ∧
     (∀ c : Config, configValidate c = none → c.defaultTTL ≤ c.maxTTL)) :=
  ⟨by decide, clampTTL_violated_invariant 5 2 1 (by decide)⟩

/-- C8 counterexample: with `defaultTTL = 2 > maxTTL = 1` and `d = 0`,
`ClampTTL 0 2 1 = 2` but `ClampTTL (ClampTTL 0 2 1) 2 1 = 1`, so the
double application differs from the single one. -/
theorem clampTTL_not_idempotent_counterexample :
    ClampTTL 0 2 1 = 2 ∧ ClampTTL (ClampTTL 0 2 1) 2 1 = 1 ∧
      ClampTTL (ClampTTL 0 2 1) 2 1 ≠ ClampTTL 0 2 1 := by
  decide

/-- C8 (amended): `ClampTTL` is idempotent for every duration `d`
whenever the clamp parameters satisfy the configuration-validated
invariant `0 < defaultTTL ≤ maxTTL`. -/
theorem clampTTL_idempotent (d defaultTTL maxTTL : Int)
    (h1 : 0 < defaultTTL) (h2 : defaultTTL ≤ maxTTL) :
    ClampTTL (ClampTTL d defaultTTL maxTTL) defaultTTL maxTTL =
      ClampTTL d defaultTTL maxTTL := by
  unfold ClampTTL
  split_ifs <;> omega

theorem clampTTL_idempotent_witness :
    (0 : Int) < 1 ∧ (1 : Int) ≤ 2 ∧
      ClampTTL (ClampTTL 5 1 2) 1 2 = ClampTTL 5 1 2 :=
  ⟨by decide, by decide, clampTTL_idempotent 5 1 2 (by decide) (by decide)⟩

/-- C10: for every tag and strictly positive `defaultTTL` and `maxTTL`,
the effective TTL `ClampTTL (ParseTTL tag)` is strictly positive, so the
stored `expiresAt = now + ttl` is strictly later than `now`. -/
theorem effective_ttl_pos (tag : String) (defaultTTL maxTTL now : Int)
    (h1 : 0 < defaultTTL) (h2 : 0 < maxTTL) :
    0 < ClampTTL (ParseTTL tag) defaultTTL maxTTL ∧
      now < now + ClampTTL (ParseTTL tag) defaultTTL maxTTL := by
  have hp : 0 < ClampTTL (ParseTTL tag) defaultTTL maxTTL := by
    unfold ClampTTL
    split_ifs <;> omega
  exact ⟨hp, by omega⟩

theorem effective_ttl_pos_witness :
    (0 : Int) < 1 ∧ (0 : Int) < 1 ∧
      (0 < ClampTTL (ParseTTL "latest") 1 1 ∧
        (0 : Int) < 0 + ClampTTL (ParseTTL "latest") 1 1) :=
  ⟨by decide, by decide,
    effective_ttl_pos "latest" 1 1 0 (by decide) (by decide)⟩

/-- C9: with any fixed positive `defaultTTL` and a `maxTTL` of at least
252 hours, `ParseTTL` followed by `ClampTTL` reproduces the literal
examples, and the four unparseable tags fall through to `defaultTTL`. -/
theorem parse_then_clamp_examples (defaultTTL maxTTL : Int)
    (hdef : 0 < defaultTTL) (hmax : 0 < maxTTL)
    (hbig : 252 * hour ≤ maxTTL) :
    ClampTTL (ParseTTL "5m") defaultTTL maxTTL = 5 * minute ∧
    ClampTTL (ParseTTL "1h") defaultTTL maxTTL = hour ∧
    ClampTTL (ParseTTL "1h30m") defaultTTL maxTTL = 90 * minute ∧
    ClampTTL (ParseTTL "2d") defaultTTL maxTTL = 48 * hour ∧
    ClampTTL (ParseTTL "1w") defaultTTL maxTTL = 168 * hour ∧
    ClampTTL (ParseTTL "1w3d12h") defaultTTL maxTTL = 252 * hour ∧
    ClampTTL (ParseTTL "latest") defaultTTL maxTTL = defaultTTL ∧
    ClampTTL (ParseTTL "") defaultTTL maxTTL = defaultTTL ∧
    ClampTTL (ParseTTL "v1.0.0") defaultTTL maxTTL = defaultTTL ∧
    ClampTTL (ParseTTL "sha-abc123") defaultTTL maxTTL = defaultTTL := by
  have hbig' : (907200000000000 : Int) ≤ maxTTL := by
    have : (252 : Int) * hour = 907200000000000 := by norm_num [hour]
    omega
  refine ⟨?_, ?_, ?_, ?_, ?_, ?_, ?_, ?_, ?_, ?_⟩
  · rw [show ParseTTL "5m" = 300000000000 from by decide,
      clampTTL_of_pos_le _ _ _ (by norm_num) (by omega)]
    norm_num [minute]
  · rw [show ParseTTL "1h" = 3600000000000 from by decide,
      clampTTL_of_pos_le _ _ _ (by norm_num) (by omega)]
    norm_num [hour]
  · rw [show ParseTTL "1h30m" = 5400000000000 from by decide,
      clampTTL_of_pos_le _ _ _ (by norm_num) (by omega)]
    norm_num [minute]
  · rw [show ParseTTL "2d" = 172800000000000 from by decide,
      clampTTL_of_pos_le _ _ _ (by norm_num) (by omega)]
    norm_num [hour]
  · rw [show ParseTTL "1w" = 604800000000000 from by decide,
      clampTTL_of_pos_le _ _ _ (by norm_num) (by omega)]
    norm_num [hour]
  · rw [show ParseTTL "1w3d12h" = 907200000000000 from by decide,
      clampTTL_of_pos_le _ _ _ (by norm_num) (by omega)]
    norm_num [hour]
  · rw [show ParseTTL "latest" = -1 from by decide,
      clampTTL_of_nonpos _ _ _ (by norm_num)]
  · rw [show ParseTTL "" = -1 from by decide,
      clampTTL_of_nonpos _ _ _ (by norm_num)]
  · rw [show ParseTTL "v1.0.0" = -1 from by decide,
      clampTTL_of_nonpos _ _ _ (by norm_num)]
  · rw [show ParseTTL "sha-abc123" = -1 from by decide,
      clampTTL_of_nonpos _ _ _ (by norm_num)]

theorem parse_then_clamp_examples_witness :
    (0 : Int) < hour ∧ (0 : Int) < 252 * hour ∧ 252 * hour ≤ 252 * hour ∧
    (ClampTTL (ParseTTL "5m") hour (252 * hour) = 5 * minute ∧
     ClampTTL (ParseTTL "1h") hour (252 * hour) = hour ∧
     ClampTTL (ParseTTL "1h30m") hour (252 * hour) = 90 * minute ∧
     ClampTTL (ParseTTL "2d") hour (252 * hour) = 48 * hour ∧
     ClampTTL (ParseTTL "1w") hour (252 * hour) = 168 * hour ∧
     ClampTTL (ParseTTL "1w3d12h") hour (252 * hour) = 252 * hour ∧
     ClampTTL (ParseTTL "latest") hour (252 * hour) = hour ∧
     ClampTTL (ParseTTL "") hour (252 * hour) = hour ∧
     ClampTTL (ParseTTL "v1.0.0") hour (252 * hour) = hour ∧
     ClampTTL (ParseTTL "sha-abc123") hour (252 * hour) = hour) :=
  ⟨by decide, by decide, le_refl _,
    parse_then_clamp_examples hour (252 * hour) (by decide) (by decide)
      (le_refl _)⟩

/-! ## `ParseTTL` and 64-bit wrap-around -/

theorem wrap64_eq_self (x : Int) (h0 : 0 ≤ x) (h1 : x < 2 ^ 63) :
    wrap64 x = x := by
  unfold wrap64
  have hmod : (x + 2 ^ 63) % 2 ^ 64 = x + 2 ^ 63 :=
    Int.emod_eq_of_lt (by omega) (by omega)
  omega

theorem atoiClamp_nonneg (n : Nat) : 0 ≤ atoiClamp n := by
  unfold atoiClamp
  apply le_min
  · exact Int.ofNat_nonneg n
  · unfold maxInt64
    norm_num

theorem hour_pos : (0 : Int) < hour := by
  unfold hour
  norm_num

theorem weekTermExact_nonneg (n : Nat) : 0 ≤ weekTermExact n := by
  unfold weekTermExact
  have h := atoiClamp_nonneg n
  have hh := hour_pos
  positivity

theorem dayTermExact_nonneg (n : Nat) : 0 ≤ dayTermExact n := by
  unfold dayTermExact
  have h := atoiClamp_nonneg n
  have hh := hour_pos
  positivity

theorem hourTermExact_nonneg (n : Nat) : 0 ≤ hourTermExact n := by
  unfold hourTermExact
  have h := atoiClamp_nonneg n
  have hh := hour_pos
  positivity

theorem minuteTermExact_nonneg (n : Nat) : 0 ≤ minuteTermExact n := by
  unfold minuteTermExact minute
  have h := atoiClamp_nonneg n
  positivity

theorem secondTermExact_nonneg (n : Nat) : 0 ≤ secondTermExact n := by
  unfold secondTermExact second
  have h := atoiClamp_nonneg n
  positivity

theorem weekTerm_eq (n : Nat) (h : weekTermExact n < 2 ^ 63) :
    weekTerm n = weekTermExact n := by
  have ha := atoiClamp_nonneg n
  have hh : (1 : Int) ≤ hour := by unfold hour; norm_num
  have b1 : 0 ≤ atoiClamp n * 7 := by positivity
  have b2 : 0 ≤ atoiClamp n * 7 * 24 := by positivity
  have he : weekTermExact n = atoiClamp n * 7 * 24 * hour := rfl
  have le2 : atoiClamp n * 7 * 24 ≤ atoiClamp n * 7 * 24 * hour :=
    le_mul_of_one_le_right b2 hh
  have le1 : atoiClamp n * 7 ≤ atoiClamp n * 7 * 24 :=
    le_mul_of_one_le_right b1 (by norm_num)
  have w1 : wrap64 (atoiClamp n * 7) = atoiClamp n * 7 :=
    wrap64_eq_self _ b1 (by omega)
  have w2 : wrap64 (atoiClamp n * 7 * 24) = atoiClamp n * 7 * 24 :=
    wrap64_eq_self _ b2 (by omega)
  have w3 : wrap64 (atoiClamp n * 7 * 24 * hour) =
      atoiClamp n * 7 * 24 * hour :=
    wrap64_eq_self _ (by omega) (by omega)
  unfold weekTerm i64mul
  rw [w1, w2, w3, he]

theorem dayTerm_eq (n : Nat) (h : dayTermExact n < 2 ^ 63) :
    dayTerm n = dayTermExact n := by
  have ha := atoiClamp_nonneg n
  have hh : (1 : Int) ≤ hour := by unfold hour; norm_num
  have b1 : 0 ≤ atoiClamp n * 24 := by positivity
  have he : dayTermExact n = atoiClamp n * 24 * hour := rfl
  have le1 : atoiClamp n * 24 ≤ atoiClamp n * 24 * hour :=
    le_mul_of_one_le_right b1 hh
  have w1 : wrap64 (atoiClamp n * 24) = atoiClamp n * 24 :=
    wrap64_eq_self _ b1 (by omega)
  have w2 : wrap64 (atoiClamp n * 24 * hour) = atoiClamp n * 24 * hour :=
    wrap64_eq_self _ (by omega) (by omega)
  unfold dayTerm i64mul
  rw [w1, w2, he]

theorem hourTerm_eq (n : Nat) (h : hourTermExact n < 2 ^ 63) :
    hourTerm n = hourTermExact n := by
  have hb := hourTermExact_nonneg n
  have he : hourTermExact n = atoiClamp n * hour := rfl
  unfold hourTerm i64mul
  rw [show atoiClamp n * hour = hourTermExact n from rfl]
  exact wrap64_eq_self _ hb h

theorem minuteTerm_eq (n : Nat) (h : minuteTermExact n < 2 ^ 63) :
    minuteTerm n = minuteTermExact n := by
  have hb := minuteTermExact_nonneg n
  unfold minuteTerm i64mul
  rw [show atoiClamp n * minute = minuteTermExact n from rfl]
  exact wrap64_eq_self _ hb h

theorem secondTerm_eq (n : Nat) (h : secondTermExact n < 2 ^ 63) :
    secondTerm n = secondTermExact n := by
  have hb := secondTermExact_nonneg n
  unfold secondTerm i64mul
  rw [show atoiClamp n * second = secondTermExact n from rfl]
  exact wrap64_eq_self _ hb h

theorem exactTermOpt_nonneg (g : Option Nat) (term : Nat → Int)
    (h : ∀ n, 0 ≤ term n) : 0 ≤ exactTermOpt g term := by
  cases g with
  | none => simp [exactTermOpt]
  | some n => simpa [exactTermOpt] using h n

theorem addTerm_eq (acc : Int) (g : Option Nat) (term termE : Nat → Int)
    (hterm : ∀ n, 0 ≤ termE n ∧ (termE n < 2 ^ 63 → term n = termE n))
    (hacc : 0 ≤ acc) (hb : acc + exactTermOpt g termE < 2 ^ 63) :
    addTerm acc g term = acc + exactTermOpt g termE := by
  cases g with
  | none => simp [addTerm, exactTermOpt]
  | some n =>
    have h1 := (hterm n).1
    have hb' : acc + termE n < 2 ^ 63 := by simpa [exactTermOpt] using hb
    have h2 := (hterm n).2 (by omega)
    simp only [addTerm, exactTermOpt, i64add, h2]
    exact wrap64_eq_self _ (by omega) hb'

theorem exactSum_nonneg (g : TagGroups) : 0 ≤ exactSum g := by
  unfold exactSum
  have p1 := exactTermOpt_nonneg g.w weekTermExact weekTermExact_nonneg
  have p2 := exactTermOpt_nonneg g.d dayTermExact dayTermExact_nonneg
  have p3 := exactTermOpt_nonneg g.h hourTermExact hourTermExact_nonneg
  have p4 := exactTermOpt_nonneg g.m minuteTermExact minuteTermExact_nonneg
  have p5 := exactTermOpt_nonneg g.s secondTermExact secondTermExact_nonneg
  omega

theorem sumTTL_eq_exact (g : TagGroups) (h : exactSum g < 2 ^ 63) :
    sumTTL g = exactSum g := by
  have p1 := exactTermOpt_nonneg g.w weekTermExact weekTermExact_nonneg
  have p2 := exactTermOpt_nonneg g.d dayTermExact dayTermExact_nonneg
  have p3 := exactTermOpt_nonneg g.h hourTermExact hourTermExact_nonneg
  have p4 := exactTermOpt_nonneg g.m minuteTermExact minuteTermExact_nonneg
  have p5 := exactTermOpt_nonneg g.s secondTermExact secondTermExact_nonneg
  unfold exactSum at h
  have s1 : addTerm 0 g.w weekTerm = 0 + exactTermOpt g.w weekTermExact :=
    addTerm_eq 0 g.w weekTerm weekTermExact
      (fun n => ⟨weekTermExact_nonneg n, weekTerm_eq n⟩) le_rfl (by omega)
  have s2 : addTerm (0 + exactTermOpt g.w weekTermExact) g.d dayTerm =
      0 + exactTermOpt g.w weekTermExact + exactTermOpt g.d dayTermExact :=
    addTerm_eq _ g.d dayTerm dayTermExact
      (fun n => ⟨dayTermExact_nonneg n, dayTerm_eq n⟩) (by omega) (by omega)
  have s3 : addTerm
      (0 + exactTermOpt g.w weekTermExact + exactTermOpt g.d dayTermExact)
      g.h hourTerm =
      0 + exactTermOpt g.w weekTermExact + exactTermOpt g.d dayTermExact +
        exactTermOpt g.h hourTermExact :=
    addTerm_eq _ g.h hourTerm hourTermExact
      (fun n => ⟨hourTermExact_nonneg n, hourTerm_eq n⟩) (by omega) (by omega)
  have s4 : addTerm
      (0 + exactTermOpt g.w weekTermExact + exactTermOpt g.d dayTermExact +
        exactTermOpt g.h hourTermExact) g.m minuteTerm =
      0 + exactTermOpt g.w weekTermExact + exactTermOpt g.d dayTermExact +
        exactTermOpt g.h hourTermExact + exactTermOpt g.m minuteTermExact :=
    addTerm_eq _ g.m minuteTerm minuteTermExact
      (fun n => ⟨minuteTermExact_nonneg n, minuteTerm_eq n⟩) (by omega)
      (by omega)
  have s5 : addTerm
      (0 + exactTermOpt g.w weekTermExact + exactTermOpt g.d dayTermExact +
        exactTermOpt g.h hourTermExact + exactTermOpt g.m minuteTermExact)
      g.s secondTerm =
      0 + exactTermOpt g.w weekTermExact + exactTermOpt g.d dayTermExact +
        exactTermOpt g.h hourTermExact + exactTermOpt g.m minuteTermExact +
        exactTermOpt g.s secondTermExact :=
    addTerm_eq _ g.s secondTerm secondTermExact
      (fun n => ⟨secondTermExact_nonneg n, secondTerm_eq n⟩) (by omega)
      (by omega)
  unfold sumTTL exactSum
  rw [s1, s2, s3, s4, s5]
  omega

/-- C4 counterexample: the tag `"0m"` is accepted by the duration grammar
(its minute group matches with magnitude 0) and `ParseTTL` returns `0`,
which is neither the unparseable marker `-1` nor strictly positive. -/
theorem parseTTL_zero_counterexample :
    ParseTTL "0m" = 0 ∧ ¬ (ParseTTL "0m" = -1 ∨ 0 < ParseTTL "0m") := by
  decide

/-- C4 (amended): for every tag whose (clamped) component magnitudes do
not overflow the 64-bit duration range, `ParseTTL` either reports the tag
unparseable (`-1`) or returns a non-negative duration; zero IS
representable (all-zero magnitudes such as `"0m"`), so the result need
not be strictly positive. -/
theorem parseTTL_nonneg (tag : String)
    (h : ∀ g, matchTag tag = some g → exactSum g < 2 ^ 63) :
    ParseTTL tag = -1 ∨ 0 ≤ ParseTTL tag := by
  by_cases h0 : tag = ""
  · left
    simp [ParseTTL, h0]
  · cases hm : matchTag tag with
    | none =>
      left
      simp [ParseTTL, h0, hm]
    | some g =>
      by_cases hv : hasValue g = false
      · left
        simp [ParseTTL, h0, hm, hv]
      · right
        have he : ParseTTL tag = sumTTL g := by
          simp [ParseTTL, h0, hm, hv]
        rw [he, sumTTL_eq_exact g (h g hm)]
        exact exactSum_nonneg g

theorem parseTTL_nonneg_witness :
    (∀ g, matchTag "0m" = some g → exactSum g < 2 ^ 63) ∧
      (ParseTTL "0m" = -1 ∨ 0 ≤ ParseTTL "0m") := by
  have harg : ∀ g, matchTag "0m" = some g → exactSum g < 2 ^ 63 := by
    intro g hg
    have h2 : matchTag "0m" = some (TagGroups.mk none none none (some 0) none) := by
      decide
    rw [h2] at hg
    have hgeq := Option.some.inj hg
    rw [← hgeq]
    decide
  exact ⟨harg, parseTTL_nonneg "0m" harg⟩

/-! ## Reconciler: `RunIfNeeded` and `Run` -/

/-- C5: `RunIfNeeded` is a no-op when the initialization check reports
initialized; surfaces a failing check as an error with no reconciliation;
and otherwise runs the full reconciliation, setting the marker only when
it succeeded. -/
theorem runIfNeeded_spec (initRes : Except String Bool) (setOk : Bool)
    (env : RecEnv) (st : RecState) :
    (initRes = Except.ok true →
      runIfNeeded initRes setOk env st =
        RunIfNeededResult.mk st none false []) ∧
    (∀ e, initRes = Except.error e →
      runIfNeeded initRes setOk env st =
        RunIfNeededResult.mk st
          (some ("checking initialization state: " ++ e)) false []) ∧
    (initRes = Except.ok false → (runRec env st.tracked).err = none →
      setOk = true →
      (runIfNeeded initRes setOk env st).state.initialized = true ∧
      (runIfNeeded initRes setOk env st).err = none ∧
      (runIfNeeded initRes setOk env st).ranRecovery = true ∧
      (runIfNeeded initRes setOk env st).state.tracked =
        (runRec env st.tracked).store) ∧
    (initRes = Except.ok false →
      ∀ e, (runRec env st.tracked).err = some e →
        (runIfNeeded initRes setOk env st).err = some e ∧
        (runIfNeeded initRes setOk env st).state.initialized =
          st.initialized) := by
  refine ⟨?_, ?_, ?_, ?_⟩
  · intro h
    subst h
    rfl
  · intro e h
    subst h
    rfl
  · intro h hrun hset
    subst h
    subst hset
    simp [runIfNeeded, hrun]
  · intro h e hrun
    subst h
    simp [runIfNeeded, hrun]

theorem runIfNeeded_spec_witness :
    runIfNeeded (Except.ok true) true
        (RecEnv.mk (Except.ok []) (fun _ => Except.ok []) (fun _ => true)
          0 1 1)
        (RecState.mk [] true) =
      RunIfNeededResult.mk (RecState.mk [] true) none false [] :=
  (runIfNeeded_spec (Except.ok true) true
      (RecEnv.mk (Except.ok []) (fun _ => Except.ok []) (fun _ => true)
        0 1 1)
      (RecState.mk [] true)).1 rfl

theorem trackImage_self_mem (store : List (String × Int)) (ref : String)
    (exp : Int) : ref ∈ (trackImage store ref exp).map Prod.fst := by
  induction store with
  | nil => simp [trackImage]
  | cons p rest ih =>
    rcases p with ⟨r, e⟩
    by_cases h : r = ref
    · simp [trackImage, h]
    · simp only [trackImage, if_neg h, List.map_cons, List.mem_cons]
      exact Or.inr ih

theorem trackImage_keys_mono (store : List (String × Int)) (ref : String)
    (exp : Int) (x : String) (hx : x ∈ store.map Prod.fst) :
    x ∈ (trackImage store ref exp).map Prod.fst := by
  induction store with
  | nil => simp at hx
  | cons p rest ih =>
    rcases p with ⟨r, e⟩
    by_cases h : r = ref
    · simp only [trackImage, if_pos h, List.map_cons, List.mem_cons]
      simp only [List.map_cons, List.mem_cons] at hx
      exact hx
    · simp only [trackImage, if_neg h, List.map_cons, List.mem_cons]
      simp only [List.map_cons, List.mem_cons] at hx
      rcases hx with h1 | h2
      · exact Or.inl h1
      · exact Or.inr (ih h2)

theorem trackTags_keys_mono (env : RecEnv) (repo : String)
    (ts : List String) (store : List (String × Int)) (x : String)
    (hx : x ∈ store.map Prod.fst) :
    x ∈ (trackTags env repo ts store).1.map Prod.fst := by
  induction ts generalizing store with
  | nil => simpa [trackTags] using hx
  | cons t rest ih =>
    by_cases h : env.trackOk (mkRef repo t) = true
    · simp only [trackTags, h, if_true]
      exact ih _ (trackImage_keys_mono _ _ _ _ hx)
    · simp only [trackTags, h, if_false]
      exact ih _ hx

theorem trackTags_mem (env : RecEnv) (repo : String) (ts : List String)
    (store : List (String × Int)) (tag : String) (htag : tag ∈ ts)
    (hok : env.trackOk (mkRef repo tag) = true) :
    mkRef repo tag ∈ (trackTags env repo ts store).1.map Prod.fst := by
  induction ts generalizing store with
  | nil => cases htag
  | cons t rest ih =>
    rcases List.mem_cons.mp htag with h1 | h2
    · subst h1
      simp only [trackTags, hok, if_true]
      exact trackTags_keys_mono _ _ _ _ _ (trackImage_self_mem _ _ _)
    · by_cases h : env.trackOk (mkRef repo t) = true
      · simp only [trackTags, h, if_true]
        exact ih _ h2
      · simp only [trackTags, h, if_false]
        exact ih _ h2

theorem runRepos_keys_mono (env : RecEnv) (rs : List String)
    (store : List (String × Int)) (x : String)
    (hx : x ∈ store.map Prod.fst) :
    x ∈ (runRepos env rs store).1.map Prod.fst := by
  induction rs generalizing store with
  | nil => simpa [runRepos] using hx
  | cons repo rest ih =>
    cases h : env.tags repo with
    | error e =>
      simp only [runRepos, h]
      exact ih _ hx
    | ok ts =>
      simp only [runRepos, h]
      exact ih _ (trackTags_keys_mono _ _ _ _ _ hx)

theorem runRepos_mem (env : RecEnv) (rs : List String)
    (store : List (String × Int)) (repo : String) (ts : List String)
    (tag : String) (hrepo : repo ∈ rs)
    (hts : env.tags repo = Except.ok ts) (htag : tag ∈ ts)
    (hok : env.trackOk (mkRef repo tag) = true) :
    mkRef repo tag ∈ (runRepos env rs store).1.map Prod.fst := by
  induction rs generalizing store with
  | nil => cases hrepo
  | cons r rest ih =>
    rcases List.mem_cons.mp hrepo with h1 | h2
    · subst h1
      simp only [runRepos, hts]
      exact runRepos_keys_mono _ _ _ _ (trackTags_mem _ _ _ _ _ htag hok)
    · cases h : env.tags r with
      | error e =>
        simp only [runRepos, h]
        exact ih _ h2
      | ok ts2 =>
        simp only [runRepos, h]
        exact ih _ h2

/-- C6: a failing top-level repository listing aborts the reconciliation
with an error before any tracking write, while a failing per-repository
tag listing (or a failing per-image tracking write) skips only that
repository (image): every tag of every successfully listed repository
whose tracking write succeeds ends up tracked. -/
theorem runRec_isolation (env : RecEnv) (store : List (String × Int)) :
    (∀ e, env.repos = Except.error e →
      (runRec env store).err = some ("listing repositories: " ++ e) ∧
      (runRec env store).store = store ∧ (runRec env store).tracks = []) ∧
    (∀ rs, env.repos = Except.ok rs →
      (runRec env store).err = none ∧
      ∀ repo, repo ∈ rs → ∀ ts, env.tags repo = Except.ok ts →
        ∀ tag, tag ∈ ts → env.trackOk (mkRef repo tag) = true →
          mkRef repo tag ∈ (runRec env store).store.map Prod.fst) := by
  constructor
  · intro e h
    simp [runRec, h]
  · intro rs h
    constructor
    · simp [runRec, h]
    · intro repo hrepo ts hts tag htag hok
      simp only [runRec, h]
      exact runRepos_mem _ _ _ _ _ _ hrepo hts htag hok

theorem runRec_isolation_witness :
    mkRef "r" "1h" ∈
      ((runRec
          (RecEnv.mk (Except.ok ["r"]) (fun _ => Except.ok ["1h"])
            (fun _ => true) 0 1 1)
          []).store.map Prod.fst) :=
  ((runRec_isolation
      (RecEnv.mk (Except.ok ["r"]) (fun _ => Except.ok ["1h"])
        (fun _ => true) 0 1 1)
      []).2 ["r"] rfl).2 "r" (by simp) ["1h"] rfl "1h" (by simp) rfl

/-! ## Webhook handler status codes -/

/-- C7 evaluation: the ingestion endpoint answers 401 for a failed token
check and 400 for an undecodable payload, but when an authorized,
well-formed push event's tracking-store write fails, `ServeHTTP` only
logs the failure and still answers 200 OK (leaving the store unchanged) —
not a server-error status as the claim (and the repository's own
architecture document) require. -/
theorem serveHTTP_store_failure_answers_200 :
    serveHTTP
        (HookEnv.mk "tok" 3600000000000 86400000000000 0 (fun _ => false))
        [] "POST" "Token tok"
        (some [RegistryEvent.mk "push" "myapp" "1h"]) = (200, []) ∧
    serveHTTP
        (HookEnv.mk "tok" 3600000000000 86400000000000 0 (fun _ => false))
        [] "POST" "Token wrong" (some []) = (401, []) ∧
    serveHTTP
        (HookEnv.mk "tok" 3600000000000 86400000000000 0 (fun _ => false))
        [] "POST" "Token tok" none = (400, []) := by
  refine ⟨rfl, ?_, rfl⟩
  decide

/-! ## The reap cycle -/

theorem reapOnce_cons (now : Int) (del : String → DelOutcome) (ref : String)
    (exp : Int) (rest : List (String × Int)) :
    reapOnce now del ((ref, exp) :: rest) =
      if now < exp then
        ((ref, exp) :: (reapOnce now del rest).1, (reapOnce now del rest).2)
      else if del ref = DelOutcome.accepted then
        ((reapOnce now del rest).1, ref :: (reapOnce now del rest).2)
      else
        ((ref, exp) :: (reapOnce now del rest).1,
          ref :: (reapOnce now del rest).2) := rfl

theorem reapOnce_keeps_future (now : Int) (del : String → DelOutcome)
    (store : List (String × Int)) (ref : String) (exp : Int)
    (hm : (ref, exp) ∈ store) (hf : now < exp) :
    (ref, exp) ∈ (reapOnce now del store).1 := by
  induction store with
  | nil => cases hm
  | cons p rest ih =>
    rcases p with ⟨r, e⟩
    rcases List.mem_cons.mp hm with h1 | h2
    · rw [Prod.mk.injEq] at h1
      obtain ⟨hr, he⟩ := h1
      subst hr
      subst he
      rw [reapOnce_cons, if_pos hf]
      exact List.mem_cons_self _ _
    · have ihm := ih h2
      rw [reapOnce_cons]
      split_ifs with hc hd
      · exact List.mem_cons_of_mem _ ihm
      · exact ihm
      · exact List.mem_cons_of_mem _ ihm

theorem reapOnce_calls_expired (now : Int) (del : String → DelOutcome)
    (store : List (String × Int)) (ref : String) (exp : Int)
    (hm : (ref, exp) ∈ store) (he : exp ≤ now) :
    ref ∈ (reapOnce now del store).2 := by
  induction store with
  | nil => cases hm
  | cons p rest ih =>
    rcases p with ⟨r, e⟩
    rcases List.mem_cons.mp hm with h1 | h2
    · rw [Prod.mk.injEq] at h1
      obtain ⟨hr, he2⟩ := h1
      subst hr
      subst he2
      rw [reapOnce_cons, if_neg (by omega)]
      split_ifs with hd
      · exact List.mem_cons_self _ _
      · exact List.mem_cons_self _ _
    · have ihm := ih h2
      rw [reapOnce_cons]
      split_ifs with hc hd
      · exact ihm
      · exact List.mem_cons_of_mem _ ihm
      · exact List.mem_cons_of_mem _ ihm

theorem reapOnce_calls_sub (now : Int) (del : String → DelOutcome)
    (store : List (String × Int)) (x : String)
    (hx : x ∈ (reapOnce now del store).2) : x ∈ store.map Prod.fst := by
  induction store with
  | nil => simp [reapOnce] at hx
  | cons p rest ih =>
    rcases p with ⟨r, e⟩
    rw [reapOnce_cons] at hx
    simp only [List.map_cons, List.mem_cons]
    split_ifs at hx with hc hd
    · exact Or.inr (ih hx)
    · rcases List.mem_cons.mp hx with h1 | h2
      · exact Or.inl h1
      · exact Or.inr (ih h2)
    · rcases List.mem_cons.mp hx with h1 | h2
      · exact Or.inl h1
      · exact Or.inr (ih h2)

theorem reapOnce_no_call_future (now : Int) (del : String → DelOutcome)
    (store : List (String × Int)) (ref : String) (exp : Int)
    (hnd : (store.map Prod.fst).Nodup) (hm : (ref, exp) ∈ store)
    (hf : now < exp) : ref ∉ (reapOnce now del store).2 := by
  induction store with
  | nil => cases hm
  | cons p rest ih =>
    rcases p with ⟨r, e⟩
    simp only [List.map_cons, List.nodup_cons] at hnd
    obtain ⟨hnr, hnd2⟩ := hnd
    rcases List.mem_cons.mp hm with h1 | h2
    · rw [Prod.mk.injEq] at h1
      obtain ⟨hr, he2⟩ := h1
      subst hr
      subst he2
      rw [reapOnce_cons, if_pos hf]
      intro hx
      exact hnr (reapOnce_calls_sub _ _ _ _ hx)
    · have hne : ref ≠ r := by
        intro hcontra
        subst hcontra
        exact hnr (List.mem_map.mpr ⟨(ref, exp), h2, rfl⟩)
      have ihm := ih hnd2 h2
      rw [reapOnce_cons]
      split_ifs with hc hd
      · exact ihm
      · intro hx
        rcases List.mem_cons.mp hx with hx1 | hx2
        · exact hne hx1
        · exact ihm hx2
      · intro hx
        rcases List.mem_cons.mp hx with hx1 | hx2
        · exact hne hx1
        · exact ihm hx2

/-- C1: with a fixed clock, a reap cycle removes a tracking record only
when its `expiresAt` is at or before `now`; it invokes the deletion
collaborator for every reference whose `expiresAt` is at or before `now`
(in particular for every expired one); and a reference with a future
`expiresAt` is left tracked with no registry call made for it. -/
theorem reapOnce_spec (now : Int) (del : String → DelOutcome)
    (store : List (String × Int))
    (hnd : (store.map Prod.fst).Nodup) :
    (∀ ref exp, (ref, exp) ∈ store →
      (ref, exp) ∉ (reapOnce now del store).1 → exp ≤ now) ∧
    (∀ ref exp, (ref, exp) ∈ store → exp ≤ now →
      ref ∈ (reapOnce now del store).2) ∧
    (∀ ref exp, (ref, exp) ∈ store → now < exp →
      (ref, exp) ∈ (reapOnce now del store).1 ∧
        ref ∉ (reapOnce now del store).2) := by
  refine ⟨?_, ?_, ?_⟩
  · intro ref exp hm hnm
    by_contra hlt
    push_neg at hlt
    exact hnm (reapOnce_keeps_future now del store ref exp hm hlt)
  · intro ref exp hm he
    exact reapOnce_calls_expired now del store ref exp hm he
  · intro ref exp hm hf
    exact ⟨reapOnce_keeps_future now del store ref exp hm hf,
      reapOnce_no_call_future now del store ref exp hnd hm hf⟩

theorem reapOnce_spec_witness :
    (([("a:5m", (-1 : Int)), ("b:1h", 10)].map Prod.fst).Nodup) ∧
    ((∀ ref exp, (ref, exp) ∈ [("a:5m", (-1 : Int)), ("b:1h", 10)] →
        (ref, exp) ∉ (reapOnce 0 (fun _ => DelOutcome.accepted)
          [("a:5m", (-1 : Int)), ("b:1h", 10)]).1 → exp ≤ 0) ∧
     (∀ ref exp, (ref, exp) ∈ [("a:5m", (-1 : Int)), ("b:1h", 10)] →
        exp ≤ 0 →
        ref ∈ (reapOnce 0 (fun _ => DelOutcome.accepted)
          [("a:5m", (-1 : Int)), ("b:1h", 10)]).2) ∧
     (∀ ref exp, (ref, exp) ∈ [("a:5m", (-1 : Int)), ("b:1h", 10)] →
        0 < exp →
        (ref, exp) ∈ (reapOnce 0 (fun _ => DelOutcome.accepted)
          [("a:5m", (-1 : Int)), ("b:1h", 10)]).1 ∧
        ref ∉ (reapOnce 0 (fun _ => DelOutcome.accepted)
          [("a:5m", (-1 : Int)), ("b:1h", 10)]).2)) :=
  ⟨by decide,
    reapOnce_spec 0 (fun _ => DelOutcome.accepted)
      [("a:5m", (-1 : Int)), ("b:1h", 10)] (by decide)⟩

/-- C2: for a well-formed reference, an artifact-store "not found"
answer during deletion (whether at digest resolution or at the DELETE
itself, status 404) still removes the reference's tracking record and
returns no error. -/
theorem deleteImage_notFound_ok (store : List (String × Int))
    (ref : String) (href : splitImage ref ≠ none) :
    (∀ delStatus, deleteImage HeadResult.notFound delStatus store ref =
      Except.ok (removeImage store ref)) ∧
    (∀ dg, deleteImage (HeadResult.digest dg) (some 404) store ref =
      Except.ok (removeImage store ref)) ∧
    ref ∉ (removeImage store ref).map Prod.fst := by
  obtain ⟨rt, hrt⟩ := Option.ne_none_iff_exists'.mp href
  refine ⟨?_, ?_, ?_⟩
  · intro delStatus
    simp [deleteImage, hrt]
  · intro dg
    simp [deleteImage, hrt]
  · intro hx
    rcases List.mem_map.mp hx with ⟨p, hp, hpe⟩
    have hne := (List.mem_filter.mp hp).2
    simp at hne
    exact hne hpe

theorem deleteImage_notFound_ok_witness :
    (splitImage "myimage:1h" ≠ none) ∧
    ((∀ delStatus, deleteImage HeadResult.notFound delStatus
        [("myimage:1h", (5 : Int))] "myimage:1h" =
        Except.ok (removeImage [("myimage:1h", (5 : Int))] "myimage:1h")) ∧
     (∀ dg, deleteImage (HeadResult.digest dg) (some 404)
        [("myimage:1h", (5 : Int))] "myimage:1h" =
        Except.ok (removeImage [("myimage:1h", (5 : Int))] "myimage:1h")) ∧
     "myimage:1h" ∉
        (removeImage [("myimage:1h", (5 : Int))] "myimage:1h").map
          Prod.fst) :=
  ⟨by decide,
    deleteImage_notFound_ok [("myimage:1h", (5 : Int))] "myimage:1h"
      (by decide)⟩
